import Mathlib

/-!
Verification of the portfolio content API (main.py, schemas.py): a shallow
embedding of the text utilities, the keyword-ranking endpoint ai_query, the
generic CRUD helpers, and the filtered list endpoints, together with proofs
about them.  Text is modelled as lists of characters so that all string
operations (lower-casing, whitespace splitting, joining, stripping,
substring containment) are fully executable and provable.
-/

/-- Text is modelled as a list of characters. -/
abbrev Str := List Char

/-- Coerce a Lean string literal to the character-list representation. -/
def str (s : String) : Str := s.data

/-- Python str.lower (ASCII range, which is all the code relies on). -/
def strToLower (s : Str) : Str := s.map Char.toLower

/-- Does the second string start with the first? -/
def strStarts : Str → Str → Bool
  | [], _ => true
  | _ :: _, [] => false
  | a :: as, b :: bs => a == b && strStarts as bs

/-- Python substring containment, the expression token in text. -/
def containsSub : Str → Str → Bool
  | n, [] => n.isEmpty
  | n, c :: t => strStarts n (c :: t) || containsSub n t

/-- Helper for Python str.split(): carries the current word, reversed. -/
def splitWsAux : Str → Str → List Str
  | [], acc => if acc.isEmpty then [] else [acc.reverse]
  | c :: cs, acc =>
    if c.isWhitespace then
      (if acc.isEmpty then [] else [acc.reverse]) ++ splitWsAux cs []
    else
      splitWsAux cs (c :: acc)

/-- Python str.split() with no arguments: split on whitespace runs, dropping
empty tokens. -/
def splitWs (s : Str) : List Str := splitWsAux s []

/-- Python sep.join(parts). -/
def joinSep (sep : Str) : List Str → Str
  | [] => []
  | [x] => x
  | x :: y :: rest => x ++ sep ++ joinSep sep (y :: rest)

/-- Python str.lstrip(). -/
def lstrip (s : Str) : Str := s.dropWhile Char.isWhitespace

/-- Python str.rstrip(). -/
def rstrip (s : Str) : Str := (s.reverse.dropWhile Char.isWhitespace).reverse

/-- Python str.strip(). -/
def pystrip (s : Str) : Str := rstrip (lstrip s)

/-- Project records, from schemas.py. -/
structure Project where
  title : Str
  description : Str
  thumbnail_url : Option Str := Option.none
  tech_stack : List Str := []
  github_url : Option Str := Option.none
  live_demo_url : Option Str := Option.none
  highlights : List Str := []
  challenges : List Str := []
  solutions : List Str := []
  year : Option Int := Option.none
deriving DecidableEq

/-- Certificate records, from schemas.py (the date is kept as ISO text, as the
serializer renders it). -/
structure Certificate where
  title : Str
  organization : Str
  date_awarded : Str := []
  skill_category : Str
  asset_url : Option Str := Option.none
  reflection : Str := []
deriving DecidableEq

/-- Learning-journal records, from schemas.py. -/
structure JournalEntry where
  title : Str
  content_markdown : Str
  tags : List Str := []
  linked_project_title : Option Str := Option.none
  linked_certificate_title : Option Str := Option.none
  date_logged : Str := []
deriving DecidableEq

/-- Profile records, from schemas.py. -/
structure Profile where
  name : Str
  tagline : Str
  traits : List Str := []
  about : Str := []
  avatar_url : Option Str := Option.none
  location : Option Str := Option.none
  email : Option Str := Option.none
  website : Option Str := Option.none
  resume_url : Option Str := Option.none
  theme_preference : Str := []
deriving DecidableEq

/-- The three collections the ranking endpoint reads, in the store's natural
(retrieval) order, as list(db[...].find()) returns them. -/
structure Store where
  projects : List Project := []
  certificates : List Certificate := []
  journal : List JournalEntry := []

/-- The request body of POST /ai/query. -/
structure AIQuery where
  question : Str
  focus : Option Str := Option.none

/-- The results mapping of the response: a key is absent (none) when its kind
was not searched. -/
structure AIResults where
  projects : Option (List Project) := Option.none
  certificates : Option (List Certificate) := Option.none
  journal : Option (List JournalEntry) := Option.none

/-- The response of POST /ai/query. -/
structure AIResponse where
  answer : Str
  results : AIResults

/-- rank_text from main.py: count the question tokens that occur in the
lower-cased text; the question is already lower-cased by the caller. -/
def rank_text (q : Str) (text : Str) : Nat :=
  (splitWs q).foldl
    (fun score token =>
      if (!token.isEmpty) && containsSub token (strToLower text) then score + 1
      else score)
    0

/-- The search text a Project is ranked on, from ai_query in main.py. -/
def projectSearchText (d : Project) : Str :=
  joinSep (str " ")
    [d.title, d.description, joinSep (str " ") d.tech_stack,
     joinSep (str " ") d.highlights]

/-- The search text a Certificate is ranked on, from ai_query in main.py. -/
def certificateSearchText (d : Certificate) : Str :=
  joinSep (str " ") [d.title, d.organization, d.skill_category, d.reflection]

/-- The search text a JournalEntry is ranked on, from ai_query in main.py. -/
def journalSearchText (d : JournalEntry) : Str :=
  joinSep (str " ") [d.title, d.content_markdown, joinSep (str " ") d.tags]

/-- The ranking key for a Project, given the already lower-cased question. -/
def projectScore (q : Str) (d : Project) : Nat := rank_text q (projectSearchText d)

/-- The ranking key for a Certificate, given the already lower-cased question. -/
def certificateScore (q : Str) (d : Certificate) : Nat :=
  rank_text q (certificateSearchText d)

/-- The ranking key for a JournalEntry, given the already lower-cased question. -/
def journalScore (q : Str) (d : JournalEntry) : Nat :=
  rank_text q (journalSearchText d)

/-- Insert an element into a list already sorted by key descending, after every
earlier element of greater-or-equal key: the stability discipline of Python's
sorted with reverse=True. -/
def insertDesc (key : α → Nat) (x : α) : List α → List α
  | [] => [x]
  | y :: ys => if key y ≤ key x then x :: y :: ys else y :: insertDesc key x ys

/-- Stable sort by key descending, the behaviour of Python's
sorted(..., key=..., reverse=True). -/
def sortDesc (key : α → Nat) : List α → List α
  | [] => []
  | x :: xs => insertDesc key x (sortDesc key xs)

/-- The projects sentence fragment of the summary, with its trailing space,
exactly as ai_query appends it (empty when the results list is absent or
empty, matching Python dict-get truthiness). -/
def projPart : Option (List Project) → Str
  | some (top :: _) =>
      str "Top project: " ++ top.title ++ str " — tech: " ++
        joinSep (str ", ") top.tech_stack ++ str ". "
  | _ => []

/-- The certificates sentence fragment of the summary, with its trailing
space, exactly as ai_query appends it. -/
def certPart : Option (List Certificate) → Str
  | some (top :: _) =>
      str "Recent certificate: " ++ top.title ++ str " in " ++
        top.skill_category ++ str ". "
  | _ => []

/-- The journal sentence fragment of the summary (no trailing space in the
source), exactly as ai_query appends it. -/
def journalPart : Option (List JournalEntry) → Str
  | some (top :: _) =>
      str "Learning focus: " ++ joinSep (str ", ") (top.tags.take 3) ++ str "."
  | _ => []

/-- ai_query from main.py: lower-case the question and focus, rank and sort
each searched collection, keep the top 5, and build the narrative summary. -/
def ai_query (st : Store) (payload : AIQuery) : AIResponse :=
  let q := strToLower payload.question
  let focus := strToLower (payload.focus.getD [])
  let projectsRes : Option (List Project) :=
    if focus = [] ∨ focus = str "project" ∨ focus = str "projects" then
      some ((sortDesc (projectScore q) st.projects).take 5)
    else Option.none
  let certificatesRes : Option (List Certificate) :=
    if focus = [] ∨ focus = str "certificate" ∨ focus = str "certificates" then
      some ((sortDesc (certificateScore q) st.certificates).take 5)
    else Option.none
  let journalRes : Option (List JournalEntry) :=
    if focus = [] ∨ focus = str "journal" then
      some ((sortDesc (journalScore q) st.journal).take 5)
    else Option.none
  let summary := projPart projectsRes ++ certPart certificatesRes ++
    journalPart journalRes
  ⟨pystrip summary, ⟨projectsRes, certificatesRes, journalRes⟩⟩

/-- The projects sentence without its trailing separator space, used to state
what the summary is a concatenation of. -/
def projSentence (top : Project) : Str :=
  str "Top project: " ++ top.title ++ str " — tech: " ++
    joinSep (str ", ") top.tech_stack ++ str "."

/-- The certificates sentence without its trailing separator space. -/
def certSentence (top : Certificate) : Str :=
  str "Recent certificate: " ++ top.title ++ str " in " ++
    top.skill_category ++ str "."

/-- The journal sentence, naming at most the first three tags of the entry. -/
def journalSentence (top : JournalEntry) : Str :=
  str "Learning focus: " ++ joinSep (str ", ") (top.tags.take 3) ++ str "."

/-- The head of a present, non-empty results list (the top-ranked record). -/
def topOf : Option (List α) → Option α
  | some (t :: _) => some t
  | _ => Option.none

/-- Render an optional sentence followed by a separator space. -/
def optTrail : Option Str → Str
  | some s => s ++ str " "
  | Option.none => []

/-- Render an optional sentence with nothing after it. -/
def optPlain : Option Str → Str
  | some s => s
  | Option.none => []

/-- The list of sentences the answer paragraph is built from, in the fixed
order projects, certificates, journal; a sentence appears exactly when the
corresponding results list is present and non-empty. -/
def sentList (res : AIResults) : List Str :=
  ((topOf res.projects).map projSentence).toList ++
  ((topOf res.certificates).map certSentence).toList ++
  ((topOf res.journal).map journalSentence).toList

/-- A sentence starts with a non-whitespace character. -/
def headNW (s : Str) : Prop := ∃ c t, s = c :: t ∧ c.isWhitespace = false

/-- A sentence ends with a full stop. -/
def lastDot (s : Str) : Prop := ∃ y, s = y ++ ['.']

/-- Both well-formedness facts about an emitted summary sentence. -/
def sentShape (s : Str) : Prop := headNW s ∧ lastDot s

/-- HTTP-style error: a status code and a detail message. -/
structure HError where
  status : Nat
  detail : Str
deriving DecidableEq

/-- A stored document: an association list from field names to values. -/
abbrev Doc (V : Type) := List (Str × V)

/-- A collection: store-assigned identifiers paired with documents. -/
abbrev Coll (V : Type) := List (Str × Doc V)

/-- Modelled from the spec: bson.ObjectId validation (bson is an external
library); a well-formed store identifier is 24 hexadecimal characters. -/
def isValidOid (s : Str) : Bool :=
  s.length == 24 &&
    s.all (fun c => c.isDigit || ('a' ≤ c && c ≤ 'f') || ('A' ≤ c && c ≤ 'F'))

/-- to_oid from main.py: parse-validate the identifier; none is the 400
Invalid ID rejection path. -/
def to_oid (s : Str) : Option Str :=
  if isValidOid s then some s else Option.none

/-- First-match lookup by key in an association list; also serves as
find_one by identifier on a collection. -/
def getField : List (Str × β) → Str → Option β
  | [], _ => Option.none
  | p :: rest, k => if p.1 = k then some p.2 else getField rest k

/-- Mongo field-set on a document: replace the binding if the field exists,
append it otherwise. -/
def setField : Doc V → Str → V → Doc V
  | [], k, v => [(k, v)]
  | p :: rest, k, v => if p.1 = k then (k, v) :: rest else p :: setField rest k v

/-- Apply a whole set payload field by field, later entries overriding
earlier ones, which is exactly the Python dict-literal semantics of the
payload built in update_item. -/
def applySet : Doc V → Doc V → Doc V
  | doc, [] => doc
  | doc, (k, v) :: rest => applySet (setField doc k v) rest

/-- The last value bound to a key in a payload list (Python dict semantics:
the later binding wins). -/
def lastVal : Doc V → Str → Option V
  | [], _ => Option.none
  | (k, v) :: rest, key =>
    match lastVal rest key with
    | some w => some w
    | Option.none => if k = key then some v else Option.none

/-- Apply a function to the first document matching the identifier, which is
what Mongo update_one does. -/
def updateFirst : Coll V → Str → (Doc V → Doc V) → Coll V
  | [], _, _ => []
  | p :: rest, k, f =>
    if p.1 = k then (p.1, f p.2) :: rest else p :: updateFirst rest k f

/-- Remove the first document matching the identifier and report the deleted
count, which is what Mongo delete_one does. -/
def eraseFirst : Coll V → Str → Coll V × Nat
  | [], _ => ([], 0)
  | p :: rest, k =>
    if p.1 = k then (rest, 1)
    else
      let r := eraseFirst rest k
      (p :: r.1, r.2)

/-- update_item from main.py: validate the id, apply a set of the supplied
fields plus a fresh updated_at stamp to the matched document, 404 when
nothing matched, then re-read and return the document. -/
def update_item (coll : Coll V) (id_str : Str) (data : Doc V) (now : V) :
    Coll V × Except HError (Option (Doc V)) :=
  match to_oid id_str with
  | Option.none => (coll, Except.error ⟨400, str "Invalid ID"⟩)
  | some oid =>
    match getField coll oid with
    | Option.none => (coll, Except.error ⟨404, str "Not found"⟩)
    | some _ =>
      let coll2 :=
        updateFirst coll oid
          (fun d => applySet d (data ++ [(str "updated_at", now)]))
      (coll2, Except.ok (getField coll2 oid))

/-- delete_item from main.py: validate the id, delete the first match, 404
when the deleted count is zero. -/
def delete_item (coll : Coll V) (id_str : Str) : Coll V × Except HError Bool :=
  match to_oid id_str with
  | Option.none => (coll, Except.error ⟨400, str "Invalid ID"⟩)
  | some oid =>
    let r := eraseFirst coll oid
    if r.2 = 0 then (r.1, Except.error ⟨404, str "Not found"⟩)
    else (r.1, Except.ok true)

/-- The document produced by an update: the old document with the supplied
fields set and updated_at stamped last, so the server timestamp wins. -/
def mergedDoc (doc data : Doc V) (now : V) : Doc V :=
  applySet doc (data ++ [(str "updated_at", now)])

/-- Modelled from the spec: the database module (create_document,
get_documents) is imported from outside src.  Per the spec the profile
endpoint surfaces the most recently created record, so retrieval is modelled
as newest-first, with the filter predicate and the optional limit applied as
the adapter contract describes. -/
def get_documents (docs : List α) (filt : α → Bool) (limit : Option Nat) :
    List α :=
  match limit with
  | some n => (docs.reverse.filter filt).take n
  | Option.none => docs.reverse.filter filt

/-- GET /profile from main.py: the single latest profile document, or an
empty object, modelled as none. -/
def get_profile (profiles : List Profile) : Option Profile :=
  (get_documents profiles (fun _ => true) (some 1)).head?

/-- Modelled from the spec: the store evaluates the elemMatch filter with a
case-insensitive regex as a match when ANY element of the list contains the
query value as a case-insensitive substring (the store itself is an external
collaborator). -/
def elemMatchCI (v : Str) (l : List Str) : Bool :=
  l.any (fun e => containsSub (strToLower v) (strToLower e))

/-- GET /projects from main.py with its optional tag and tech query
parameters; an empty string is falsy in Python, so it adds no filter, exactly
as the source's if tag / if tech guards behave. -/
def get_projects (projects : List Project) (tag tech : Option Str) :
    List Project :=
  let tagOk : Project → Bool := fun p =>
    match tag with
    | some t => if t.isEmpty then true else elemMatchCI t p.highlights
    | Option.none => true
  let techOk : Project → Bool := fun p =>
    match tech with
    | some t => if t.isEmpty then true else elemMatchCI t p.tech_stack
    | Option.none => true
  get_documents projects (fun p => tagOk p && techOk p) Option.none

/-- The first example record of the spec's ranking test vector. -/
def dataPipeline : Project :=
  { title := str "Data Pipeline", description := str "",
    tech_stack := [str "Python", str "SQL"] }

/-- The second example record of the spec's ranking test vector. -/
def gameEngine : Project :=
  { title := str "Game Engine", description := str "",
    tech_stack := [str "C++"] }

/-- A certificate that matches the question python. -/
def pyCert : Certificate :=
  { title := str "Python Cert", organization := str "Org",
    skill_category := str "AI" }

/-- A project with no highlights at all. -/
def plainProject : Project :=
  { title := str "P", description := str "" }

/-- A well-formed 24-character hexadecimal store identifier. -/
def oidA : Str := str "0123456789abcdef01234567"

/-- A concrete stored document for the update example. -/
def docW : Doc Nat := [(str "a", 1), (str "b", 2)]

/-- A concrete collection for the update example. -/
def collW : Coll Nat := [(oidA, docW)]

/-- A concrete update payload that also tries to supply updated_at. -/
def dataW : Doc Nat := [(str "a", 9), (str "updated_at", 7)]

theorem str_space : str " " = [' '] := rfl

theorem str_dot : str "." = ['.'] := rfl

theorem str_dot_space : str ". " = ['.'] ++ [' '] := rfl

theorem mem_insertDesc {key : α → Nat} {x a : α} {l : List α} :
    a ∈ insertDesc key x l ↔ a = x ∨ a ∈ l := by
  induction l with
  | nil => simp [insertDesc]
  | cons y ys ih =>
    by_cases h : key y ≤ key x
    · simp [insertDesc, h]
    · simp only [insertDesc, if_neg h, List.mem_cons, ih]
      tauto

theorem insertDesc_ne_nil {key : α → Nat} (x : α) (l : List α) :
    insertDesc key x l ≠ [] := by
  cases l with
  | nil => simp [insertDesc]
  | cons y ys => by_cases h : key y ≤ key x <;> simp [insertDesc, h]

theorem sorted_insertDesc {key : α → Nat} (x : α) {l : List α}
    (h : List.Sorted (fun a b => key b ≤ key a) l) :
    List.Sorted (fun a b => key b ≤ key a) (insertDesc key x l) := by
  induction l with
  | nil => simp [insertDesc]
  | cons y ys ih =>
    rw [List.sorted_cons] at h
    obtain ⟨hy, hys⟩ := h
    by_cases hxy : key y ≤ key x
    · simp only [insertDesc, if_pos hxy]
      rw [List.sorted_cons]
      refine ⟨?_, ?_⟩
      · intro b hb
        rcases List.mem_cons.mp hb with rfl | hb
        · exact hxy
        · exact le_trans (hy b hb) hxy
      · rw [List.sorted_cons]
        exact ⟨hy, hys⟩
    · simp only [insertDesc, if_neg hxy]
      rw [List.sorted_cons]
      refine ⟨?_, ih hys⟩
      intro b hb
      rcases mem_insertDesc.mp hb with rfl | hb
      · omega
      · exact hy b hb

theorem sorted_sortDesc {key : α → Nat} (l : List α) :
    List.Sorted (fun a b => key b ≤ key a) (sortDesc key l) := by
  induction l with
  | nil => simp [sortDesc]
  | cons x xs ih => exact sorted_insertDesc x ih

theorem perm_insertDesc {key : α → Nat} (x : α) (l : List α) :
    List.Perm (insertDesc key x l) (x :: l) := by
  induction l with
  | nil => simp [insertDesc]
  | cons y ys ih =>
    by_cases h : key y ≤ key x
    · simp [insertDesc, h]
    · simp only [insertDesc, if_neg h]
      exact (List.Perm.cons y ih).trans (List.Perm.swap x y ys)

theorem perm_sortDesc {key : α → Nat} (l : List α) :
    List.Perm (sortDesc key l) l := by
  induction l with
  | nil => simp [sortDesc]
  | cons x xs ih =>
    simp only [sortDesc]
    exact (perm_insertDesc x (sortDesc key xs)).trans (List.Perm.cons x ih)

theorem filter_insertDesc {key : α → Nat} (x : α) (l : List α) (n : Nat) :
    (insertDesc key x l).filter (fun a => decide (key a = n)) =
      (if key x = n then [x] else []) ++
        l.filter (fun a => decide (key a = n)) := by
  induction l with
  | nil => by_cases h : key x = n <;> simp [insertDesc, h]
  | cons y ys ih =>
    by_cases hxy : key y ≤ key x
    · simp only [insertDesc, if_pos hxy]
      by_cases hx : key x = n <;> simp [List.filter_cons, hx]
    · simp only [insertDesc, if_neg hxy]
      by_cases hy : key y = n <;> by_cases hx : key x = n
      · exact absurd (by omega : key y ≤ key x) hxy
      · simp [List.filter_cons, hy, hx, ih]
      · simp [List.filter_cons, hy, hx, ih]
      · simp [List.filter_cons, hy, hx, ih]

theorem filter_sortDesc {key : α → Nat} (l : List α) (n : Nat) :
    (sortDesc key l).filter (fun a => decide (key a = n)) =
      l.filter (fun a => decide (key a = n)) := by
  induction l with
  | nil => rfl
  | cons x xs ih =>
    simp only [sortDesc, filter_insertDesc, ih]
    by_cases hx : key x = n <;> simp [List.filter_cons, hx]

theorem sortDesc_of_const {key : α → Nat} {c : Nat} :
    ∀ l : List α, (∀ x ∈ l, key x = c) → sortDesc key l = l := by
  intro l
  induction l with
  | nil => intro _; rfl
  | cons x xs ih =>
    intro h
    have hxs := ih (fun y hy => h y (List.mem_cons_of_mem x hy))
    simp only [sortDesc, hxs]
    cases xs with
    | nil => rfl
    | cons y ys =>
      have h1 : key y ≤ key x := by
        rw [h x (List.mem_cons_self x (y :: ys)), h y (by simp)]
      simp [insertDesc, h1]

theorem sortDesc_take_isEmpty {key : α → Nat} (l : List α) (n : Nat) :
    ((sortDesc key l).take (n + 1)).isEmpty = l.isEmpty := by
  cases l with
  | nil => rfl
  | cons x xs =>
    simp only [sortDesc]
    obtain ⟨a, t, ht⟩ :=
      List.exists_cons_of_ne_nil (insertDesc_ne_nil x (sortDesc key xs))
    rw [ht]
    simp [List.take_succ_cons]

theorem foldl_count (g : Str → Bool) (l : List Str) (n : Nat) :
    l.foldl (fun s t => if g t then s + 1 else s) n =
      n + (l.filter g).length := by
  induction l generalizing n with
  | nil => simp
  | cons t ts ih =>
    by_cases h : g t
    · rw [List.foldl_cons, if_pos h, ih, List.filter_cons, if_pos h,
        List.length_cons]
      omega
    · rw [List.foldl_cons, if_neg h, ih, List.filter_cons, if_neg h]

theorem splitWsAux_not_empty :
    ∀ (s acc t : Str), t ∈ splitWsAux s acc → t.isEmpty = false := by
  intro s
  induction s with
  | nil =>
    intro acc t ht
    simp only [splitWsAux] at ht
    by_cases h : acc.isEmpty
    · simp [h] at ht
    · rw [if_neg h] at ht
      rw [List.mem_singleton] at ht
      subst ht
      have hne : acc ≠ [] := by simpa using h
      rw [List.isEmpty_eq_false]
      simpa using hne
  | cons c cs ih =>
    intro acc t ht
    simp only [splitWsAux] at ht
    by_cases hw : c.isWhitespace
    · rw [if_pos hw, List.mem_append] at ht
      rcases ht with ht | ht
      · by_cases h : acc.isEmpty
        · simp [h] at ht
        · rw [if_neg h, List.mem_singleton] at ht
          subst ht
          have hne : acc ≠ [] := by simpa using h
          rw [List.isEmpty_eq_false]
          simpa using hne
      · exact ih [] t ht
    · rw [if_neg hw] at ht
      exact ih (c :: acc) t ht

theorem splitWs_not_empty (s t : Str) (h : t ∈ splitWs s) :
    t.isEmpty = false :=
  splitWsAux_not_empty s [] t h

theorem rank_text_eq_count (q text : Str) :
    rank_text q text =
      ((splitWs q).filter (fun t => containsSub t (strToLower text))).length := by
  rw [rank_text, foldl_count, Nat.zero_add]
  congr 1
  apply List.filter_congr
  intro t ht
  rw [splitWs_not_empty q t ht]
  rfl

theorem lstrip_cons (c : Char) (t : Str) (h : c.isWhitespace = false) :
    lstrip (c :: t) = c :: t := by
  simp [lstrip, List.dropWhile_cons, h]

theorem rstrip_append_ws (x : Str) (c : Char) (h : c.isWhitespace = true) :
    rstrip (x ++ [c]) = rstrip x := by
  simp [rstrip, List.reverse_append, List.dropWhile_cons, h]

theorem rstrip_append_nw (x : Str) (c : Char) (h : c.isWhitespace = false) :
    rstrip (x ++ [c]) = x ++ [c] := by
  simp [rstrip, List.reverse_append, List.dropWhile_cons, h]

theorem headNW_append {x : Str} (z : Str) (h : headNW x) : headNW (x ++ z) := by
  obtain ⟨c, t, rfl, hc⟩ := h
  exact ⟨c, t ++ z, by simp, hc⟩

theorem lastDot_append (x : Str) {y : Str} (h : lastDot y) :
    lastDot (x ++ y) := by
  obtain ⟨w, rfl⟩ := h
  exact ⟨x ++ w, by simp⟩

theorem lstrip_of_headNW {x : Str} (h : headNW x) : lstrip x = x := by
  obtain ⟨c, t, rfl, hc⟩ := h
  exact lstrip_cons c t hc

theorem rstrip_of_lastDot {x : Str} (h : lastDot x) : rstrip x = x := by
  obtain ⟨y, rfl⟩ := h
  exact rstrip_append_nw y '.' (by decide)

theorem pystrip_of (x : Str) (h1 : headNW x) (h2 : lastDot x) :
    pystrip x = x := by
  rw [pystrip, lstrip_of_headNW h1, rstrip_of_lastDot h2]

theorem pystrip_sp (x : Str) (h1 : headNW x) (h2 : lastDot x) :
    pystrip (x ++ [' ']) = x := by
  rw [pystrip, lstrip_of_headNW (headNW_append [' '] h1),
    rstrip_append_ws x ' ' (by decide), rstrip_of_lastDot h2]

theorem dropWhile_self (p : α → Bool) (l : List α) :
    (l.dropWhile p).dropWhile p = l.dropWhile p := by
  induction l with
  | nil => rfl
  | cons x xs ih =>
    by_cases h : p x
    · simp [List.dropWhile_cons, h, ih]
    · simp [List.dropWhile_cons, h]

theorem rstrip_rstrip (x : Str) : rstrip (rstrip x) = rstrip x := by
  simp [rstrip, List.reverse_reverse, dropWhile_self]

theorem rstrip_pystrip (x : Str) : rstrip (pystrip x) = pystrip x := by
  rw [pystrip, rstrip_rstrip]

theorem projSentence_shape (p : Project) : sentShape (projSentence p) := by
  constructor
  · refine ⟨'T', str "op project: " ++ p.title ++ str " — tech: " ++
      joinSep (str ", ") p.tech_stack ++ str ".", ?_, by decide⟩
    rw [projSentence,
      show str "Top project: " = 'T' :: str "op project: " from rfl]
    simp [List.append_assoc]
  · exact ⟨str "Top project: " ++ p.title ++ str " — tech: " ++
      joinSep (str ", ") p.tech_stack, rfl⟩

theorem certSentence_shape (c : Certificate) : sentShape (certSentence c) := by
  constructor
  · refine ⟨'R', str "ecent certificate: " ++ c.title ++ str " in " ++
      c.skill_category ++ str ".", ?_, by decide⟩
    rw [certSentence,
      show str "Recent certificate: " = 'R' :: str "ecent certificate: " from rfl]
    simp [List.append_assoc]
  · exact ⟨str "Recent certificate: " ++ c.title ++ str " in " ++
      c.skill_category, rfl⟩

theorem journalSentence_shape (j : JournalEntry) :
    sentShape (journalSentence j) := by
  constructor
  · refine ⟨'L', str "earning focus: " ++
      joinSep (str ", ") (j.tags.take 3) ++ str ".", ?_, by decide⟩
    rw [journalSentence,
      show str "Learning focus: " = 'L' :: str "earning focus: " from rfl]
    simp [List.append_assoc]
  · exact ⟨str "Learning focus: " ++ joinSep (str ", ") (j.tags.take 3), rfl⟩

theorem projPart_eq (po : Option (List Project)) :
    projPart po = optTrail ((topOf po).map projSentence) := by
  rcases po with _ | po2
  · rfl
  · rcases po2 with _ | ⟨t, l⟩
    · rfl
    · simp [projPart, optTrail, topOf, projSentence, str_dot_space, str_space,
        str_dot, List.append_assoc]

theorem certPart_eq (co : Option (List Certificate)) :
    certPart co = optTrail ((topOf co).map certSentence) := by
  rcases co with _ | co2
  · rfl
  · rcases co2 with _ | ⟨t, l⟩
    · rfl
    · simp [certPart, optTrail, topOf, certSentence, str_dot_space, str_space,
        str_dot, List.append_assoc]

theorem journalPart_eq (jo : Option (List JournalEntry)) :
    journalPart jo = optPlain ((topOf jo).map journalSentence) := by
  rcases jo with _ | jo2
  · rfl
  · rcases jo2 with _ | ⟨t, l⟩
    · rfl
    · rfl

theorem shape_of_mapped_proj (po : Option (List Project)) :
    ∀ s, ((topOf po).map projSentence) = some s → sentShape s := by
  intro s hs
  rcases po with _ | po2
  · simp [topOf] at hs
  · rcases po2 with _ | ⟨t, l⟩
    · simp [topOf] at hs
    · simp [topOf] at hs
      exact hs ▸ projSentence_shape t

theorem shape_of_mapped_cert (co : Option (List Certificate)) :
    ∀ s, ((topOf co).map certSentence) = some s → sentShape s := by
  intro s hs
  rcases co with _ | co2
  · simp [topOf] at hs
  · rcases co2 with _ | ⟨t, l⟩
    · simp [topOf] at hs
    · simp [topOf] at hs
      exact hs ▸ certSentence_shape t

theorem shape_of_mapped_journal (jo : Option (List JournalEntry)) :
    ∀ s, ((topOf jo).map journalSentence) = some s → sentShape s := by
  intro s hs
  rcases jo with _ | jo2
  · simp [topOf] at hs
  · rcases jo2 with _ | ⟨t, l⟩
    · simp [topOf] at hs
    · simp [topOf] at hs
      exact hs ▸ journalSentence_shape t

theorem strip_opt3 (a b c : Option Str)
    (ha : ∀ s, a = some s → sentShape s)
    (hb : ∀ s, b = some s → sentShape s)
    (hc : ∀ s, c = some s → sentShape s) :
    pystrip (optTrail a ++ optTrail b ++ optPlain c) =
      joinSep (str " ") (a.toList ++ b.toList ++ c.toList) := by
  rcases a with _ | sa <;> rcases b with _ | sb <;> rcases c with _ | sc <;>
    simp only [optTrail, optPlain, Option.toList, List.nil_append,
      List.append_nil]
  · rfl
  · obtain ⟨h1, h2⟩ := hc sc rfl
    exact pystrip_of sc h1 h2
  · obtain ⟨h1, h2⟩ := hb sb rfl
    exact pystrip_sp sb h1 h2
  · obtain ⟨hb1, hb2⟩ := hb sb rfl
    obtain ⟨hc1, hc2⟩ := hc sc rfl
    rw [pystrip_of _ (headNW_append sc (headNW_append (str " ") hb1))
      (lastDot_append (sb ++ str " ") hc2)]
    simp [joinSep, List.append_assoc]
  · obtain ⟨h1, h2⟩ := ha sa rfl
    exact pystrip_sp sa h1 h2
  · obtain ⟨ha1, ha2⟩ := ha sa rfl
    obtain ⟨hc1, hc2⟩ := hc sc rfl
    rw [pystrip_of _ (headNW_append sc (headNW_append (str " ") ha1))
      (lastDot_append (sa ++ str " ") hc2)]
    simp [joinSep, List.append_assoc]
  · obtain ⟨ha1, ha2⟩ := ha sa rfl
    obtain ⟨hb1, hb2⟩ := hb sb rfl
    have he : (sa ++ str " ") ++ (sb ++ str " ") =
        ((sa ++ str " ") ++ sb) ++ [' '] := by
      simp [str_space, List.append_assoc]
    rw [he, pystrip_sp _ (headNW_append sb (headNW_append (str " ") ha1))
      (lastDot_append (sa ++ str " ") hb2)]
    simp [joinSep, List.append_assoc]
  · obtain ⟨ha1, ha2⟩ := ha sa rfl
    obtain ⟨hb1, hb2⟩ := hb sb rfl
    obtain ⟨hc1, hc2⟩ := hc sc rfl
    rw [pystrip_of _
      (headNW_append sc
        (headNW_append (sb ++ str " ") (headNW_append (str " ") ha1)))
      (lastDot_append ((sa ++ str " ") ++ (sb ++ str " ")) hc2)]
    simp [joinSep, List.append_assoc]

theorem ai_query_results_projects (st : Store) (q : Str) (f : Option Str) :
    (ai_query st ⟨q, f⟩).results.projects =
      (if strToLower (f.getD []) = [] ∨
          strToLower (f.getD []) = str "project" ∨
          strToLower (f.getD []) = str "projects" then
        some ((sortDesc (projectScore (strToLower q)) st.projects).take 5)
      else Option.none) := rfl

theorem ai_query_results_certificates (st : Store) (q : Str) (f : Option Str) :
    (ai_query st ⟨q, f⟩).results.certificates =
      (if strToLower (f.getD []) = [] ∨
          strToLower (f.getD []) = str "certificate" ∨
          strToLower (f.getD []) = str "certificates" then
        some ((sortDesc (certificateScore (strToLower q))
          st.certificates).take 5)
      else Option.none) := rfl

theorem ai_query_results_journal (st : Store) (q : Str) (f : Option Str) :
    (ai_query st ⟨q, f⟩).results.journal =
      (if strToLower (f.getD []) = [] ∨
          strToLower (f.getD []) = str "journal" then
        some ((sortDesc (journalScore (strToLower q)) st.journal).take 5)
      else Option.none) := rfl

theorem ai_query_answer (st : Store) (payload : AIQuery) :
    (ai_query st payload).answer =
      joinSep (str " ") (sentList (ai_query st payload).results) := by
  have e : (ai_query st payload).answer =
      pystrip (projPart (ai_query st payload).results.projects ++
        certPart (ai_query st payload).results.certificates ++
        journalPart (ai_query st payload).results.journal) := rfl
  rw [e, projPart_eq, certPart_eq, journalPart_eq,
    strip_opt3 _ _ _ (shape_of_mapped_proj _) (shape_of_mapped_cert _)
      (shape_of_mapped_journal _)]
  rfl

theorem getField_eq_none_of_not_mem {β : Type} (l : List (Str × β)) (k : Str)
    (h : k ∉ l.map Prod.fst) : getField l k = Option.none := by
  induction l with
  | nil => rfl
  | cons p rest ih =>
    simp only [List.map_cons, List.mem_cons, not_or] at h
    rw [getField, if_neg (fun hh => h.1 hh.symm)]
    exact ih h.2

theorem eraseFirst_of_none {V : Type} (coll : Coll V) (k : Str)
    (h : getField coll k = Option.none) : eraseFirst coll k = (coll, 0) := by
  induction coll with
  | nil => rfl
  | cons p rest ih =>
    by_cases hp : p.1 = k
    · rw [getField, if_pos hp] at h
      exact absurd h (by simp)
    · rw [getField, if_neg hp] at h
      simp only [eraseFirst, if_neg hp, ih h]

theorem getField_eraseFirst_nodup {V : Type} (coll : Coll V) (k : Str)
    (h : (coll.map Prod.fst).Nodup) :
    getField (eraseFirst coll k).1 k = Option.none := by
  induction coll with
  | nil => rfl
  | cons p rest ih =>
    rw [List.map_cons, List.nodup_cons] at h
    obtain ⟨hnot, hnd⟩ := h
    by_cases hp : p.1 = k
    · simp only [eraseFirst, if_pos hp]
      exact getField_eq_none_of_not_mem rest k (hp ▸ hnot)
    · simp only [eraseFirst, if_neg hp]
      rw [getField, if_neg hp]
      exact ih hnd

theorem getField_updateFirst {V : Type} (coll : Coll V) (k : Str)
    (f : Doc V → Doc V) {doc : Doc V} (h : getField coll k = some doc) :
    getField (updateFirst coll k f) k = some (f doc) := by
  induction coll with
  | nil => simp [getField] at h
  | cons p rest ih =>
    by_cases hp : p.1 = k
    · rw [getField, if_pos hp] at h
      have h2 : p.2 = doc := by injection h
      rw [updateFirst, if_pos hp, getField, if_pos hp, h2]
    · rw [getField, if_neg hp] at h
      rw [updateFirst, if_neg hp, getField, if_neg hp]
      exact ih h

theorem getField_setField_self {V : Type} (d : Doc V) (k : Str) (v : V) :
    getField (setField d k v) k = some v := by
  induction d with
  | nil => simp [setField, getField]
  | cons p rest ih =>
    by_cases hp : p.1 = k
    · simp [setField, hp, getField]
    · rw [setField, if_neg hp, getField, if_neg hp]
      exact ih

theorem getField_setField_ne {V : Type} (d : Doc V) (k k2 : Str) (v : V)
    (hne : k2 ≠ k) : getField (setField d k v) k2 = getField d k2 := by
  induction d with
  | nil => simp [setField, getField, Ne.symm hne]
  | cons p rest ih =>
    by_cases hp : p.1 = k
    · have hp2 : ¬(p.1 = k2) := by
        rw [hp]
        exact Ne.symm hne
      rw [setField, if_pos hp, getField, if_neg (Ne.symm hne), getField,
        if_neg hp2]
    · rw [setField, if_neg hp]
      by_cases hq : p.1 = k2
      · rw [getField, if_pos hq, getField, if_pos hq]
      · rw [getField, if_neg hq, getField, if_neg hq]
        exact ih

theorem getField_applySet {V : Type} (u : Doc V) (d : Doc V) (k : Str) :
    getField (applySet d u) k =
      (match lastVal u k with
       | some v => some v
       | Option.none => getField d k) := by
  induction u generalizing d with
  | nil => rfl
  | cons p rest ih =>
    obtain ⟨pk, pv⟩ := p
    show getField (applySet (setField d pk pv) rest) k = _
    rw [ih]
    simp only [lastVal]
    cases hr : lastVal rest k with
    | some w => rfl
    | none =>
      by_cases hp : pk = k
      · rw [if_pos hp, hp, getField_setField_self]
      · rw [if_neg hp, getField_setField_ne d pk k pv (fun hh => hp hh.symm)]

theorem lastVal_append {V : Type} (a b : Doc V) (k : Str) :
    lastVal (a ++ b) k =
      (match lastVal b k with
       | some w => some w
       | Option.none => lastVal a k) := by
  induction a with
  | nil => cases hb : lastVal b k <;> simp [hb, lastVal]
  | cons p rest ih =>
    obtain ⟨pk, pv⟩ := p
    show (match lastVal (rest ++ b) k with
      | some w => some w
      | Option.none => if pk = k then some pv else Option.none) = _
    rw [ih]
    cases hb : lastVal b k with
    | some w => rfl
    | none =>
      show (match lastVal rest k with
        | some w => some w
        | Option.none => if pk = k then some pv else Option.none) = _
      simp only [lastVal]

theorem head?_take_one (l : List α) : (l.take 1).head? = l.head? := by
  cases l <;> rfl

theorem get_profile_getLast (l : List Profile) : get_profile l = l.getLast? := by
  rw [get_profile]
  show ((l.reverse.filter (fun _ => true)).take 1).head? = l.getLast?
  rw [List.filter_true, head?_take_one, List.head?_reverse]

theorem sortDesc_take5_isEmpty {key : α → Nat} (l : List α) :
    ((sortDesc key l).take 5).isEmpty = l.isEmpty := sortDesc_take_isEmpty l 4

/-- C1: the ranking score ai_query computes for a Project equals the number
of whitespace tokens of the lower-cased question that occur as substrings of
the lower-cased search text built by space-joining title, description,
tech_stack and highlights, counted once per occurrence in the token list;
and on the spec's vector the question python data scores Data Pipeline 2 and
Game Engine 0, and the top-5 output places the first before the second. -/
theorem claim_C1 :
    (∀ (q : Str) (p : Project),
      projectScore (strToLower q) p =
        ((splitWs (strToLower q)).filter
          (fun t => containsSub t (strToLower (projectSearchText p)))).length) ∧
    projectScore (strToLower (str "python data")) dataPipeline = 2 ∧
    projectScore (strToLower (str "python data")) gameEngine = 0 ∧
    (ai_query ⟨[dataPipeline, gameEngine], [], []⟩
        ⟨str "python data", Option.none⟩).results.projects =
      some [dataPipeline, gameEngine] := by
  refine ⟨?_, by decide, by decide, by decide⟩
  intro q p
  exact rank_text_eq_count (strToLower q) (projectSearchText p)

/-- C2: for every question and focus, each searched kind's results are the
first five elements of the stable descending sort of the store's candidates
by score; that sort is sorted by score descending, is a permutation of the
candidates, and preserves the store-returned order of equal-score
candidates; and an empty question scores every candidate 0, so the returned
top 5 are exactly the first five records in store order. -/
theorem claim_C2 :
    (∀ (st : Store) (q : Str) (f : Option Str),
      (ai_query st ⟨q, f⟩).results.projects =
        (ai_query st ⟨q, f⟩).results.projects.map
          (fun _ =>
            (sortDesc (projectScore (strToLower q)) st.projects).take 5) ∧
      (ai_query st ⟨q, f⟩).results.certificates =
        (ai_query st ⟨q, f⟩).results.certificates.map
          (fun _ =>
            (sortDesc (certificateScore (strToLower q))
              st.certificates).take 5) ∧
      (ai_query st ⟨q, f⟩).results.journal =
        (ai_query st ⟨q, f⟩).results.journal.map
          (fun _ =>
            (sortDesc (journalScore (strToLower q)) st.journal).take 5)) ∧
    (∀ (α : Type) (key : α → Nat) (l : List α),
      List.Sorted (fun a b => key b ≤ key a) (sortDesc key l) ∧
      List.Sorted (fun a b => key b ≤ key a) ((sortDesc key l).take 5) ∧
      List.Perm (sortDesc key l) l ∧
      (∀ n : Nat,
        (sortDesc key l).filter (fun x => decide (key x = n)) =
          l.filter (fun x => decide (key x = n)))) ∧
    (∀ st : Store,
      (ai_query st ⟨[], Option.none⟩).results.projects =
          some (st.projects.take 5) ∧
      (ai_query st ⟨[], Option.none⟩).results.certificates =
          some (st.certificates.take 5) ∧
      (ai_query st ⟨[], Option.none⟩).results.journal =
          some (st.journal.take 5)) ∧
    (∀ d : Project, projectScore [] d = 0) ∧
    (∀ d : Certificate, certificateScore [] d = 0) ∧
    (∀ d : JournalEntry, journalScore [] d = 0) := by
  refine ⟨?_, ?_, ?_, fun d => rfl, fun d => rfl, fun d => rfl⟩
  · intro st q f
    refine ⟨?_, ?_, ?_⟩
    · rw [ai_query_results_projects]
      by_cases h : (strToLower (f.getD []) = [] ∨
          strToLower (f.getD []) = str "project" ∨
          strToLower (f.getD []) = str "projects")
      · rw [if_pos h]
        rfl
      · rw [if_neg h]
        rfl
    · rw [ai_query_results_certificates]
      by_cases h : (strToLower (f.getD []) = [] ∨
          strToLower (f.getD []) = str "certificate" ∨
          strToLower (f.getD []) = str "certificates")
      · rw [if_pos h]
        rfl
      · rw [if_neg h]
        rfl
    · rw [ai_query_results_journal]
      by_cases h : (strToLower (f.getD []) = [] ∨
          strToLower (f.getD []) = str "journal")
      · rw [if_pos h]
        rfl
      · rw [if_neg h]
        rfl
  · intro α key l
    refine ⟨sorted_sortDesc l, ?_, perm_sortDesc l, filter_sortDesc l⟩
    exact List.Pairwise.sublist (List.take_sublist 5 _) (sorted_sortDesc l)
  · intro st
    refine ⟨?_, ?_, ?_⟩
    · rw [ai_query_results_projects, if_pos (by decide),
        sortDesc_of_const st.projects
          (fun x _ => (rfl : projectScore (strToLower []) x = 0))]
    · rw [ai_query_results_certificates, if_pos (by decide),
        sortDesc_of_const st.certificates
          (fun x _ => (rfl : certificateScore (strToLower []) x = 0))]
    · rw [ai_query_results_journal, if_pos (by decide),
        sortDesc_of_const st.journal
          (fun x _ => (rfl : journalScore (strToLower []) x = 0))]

/-- C3: which kinds appear in results is controlled by focus: unset or empty
searches all three kinds (projects, certificates, journal); a recognized
singular or plural kind name, compared case-insensitively, restricts to
exactly that kind; an unrecognized focus yields no results for any kind; in
particular a certificates focus never populates projects or journal. -/
theorem claim_C3 (st : Store) (q : Str) (f : Option Str) :
    (f = Option.none →
      (ai_query st ⟨q, f⟩).results.projects.isSome = true ∧
      (ai_query st ⟨q, f⟩).results.certificates.isSome = true ∧
      (ai_query st ⟨q, f⟩).results.journal.isSome = true) ∧
    (strToLower (f.getD []) = [] →
      (ai_query st ⟨q, f⟩).results.projects.isSome = true ∧
      (ai_query st ⟨q, f⟩).results.certificates.isSome = true ∧
      (ai_query st ⟨q, f⟩).results.journal.isSome = true) ∧
    ((strToLower (f.getD []) = str "project" ∨
        strToLower (f.getD []) = str "projects") →
      (ai_query st ⟨q, f⟩).results.projects.isSome = true ∧
      (ai_query st ⟨q, f⟩).results.certificates = Option.none ∧
      (ai_query st ⟨q, f⟩).results.journal = Option.none) ∧
    ((strToLower (f.getD []) = str "certificate" ∨
        strToLower (f.getD []) = str "certificates") →
      (ai_query st ⟨q, f⟩).results.projects = Option.none ∧
      (ai_query st ⟨q, f⟩).results.certificates.isSome = true ∧
      (ai_query st ⟨q, f⟩).results.journal = Option.none) ∧
    (strToLower (f.getD []) = str "journal" →
      (ai_query st ⟨q, f⟩).results.projects = Option.none ∧
      (ai_query st ⟨q, f⟩).results.certificates = Option.none ∧
      (ai_query st ⟨q, f⟩).results.journal.isSome = true) ∧
    ((strToLower (f.getD []) ≠ [] ∧
        strToLower (f.getD []) ≠ str "project" ∧
        strToLower (f.getD []) ≠ str "projects" ∧
        strToLower (f.getD []) ≠ str "certificate" ∧
        strToLower (f.getD []) ≠ str "certificates" ∧
        strToLower (f.getD []) ≠ str "journal") →
      (ai_query st ⟨q, f⟩).results.projects = Option.none ∧
      (ai_query st ⟨q, f⟩).results.certificates = Option.none ∧
      (ai_query st ⟨q, f⟩).results.journal = Option.none) := by
  refine ⟨?_, ?_, ?_, ?_, ?_, ?_⟩
  · intro h
    subst h
    refine ⟨?_, ?_, ?_⟩
    · rw [ai_query_results_projects, if_pos (by decide)]
      rfl
    · rw [ai_query_results_certificates, if_pos (by decide)]
      rfl
    · rw [ai_query_results_journal, if_pos (by decide)]
      rfl
  · intro h
    refine ⟨?_, ?_, ?_⟩
    · rw [ai_query_results_projects, if_pos (Or.inl h)]
      rfl
    · rw [ai_query_results_certificates, if_pos (Or.inl h)]
      rfl
    · rw [ai_query_results_journal, if_pos (Or.inl h)]
      rfl
  · intro h
    refine ⟨?_, ?_, ?_⟩
    · rw [ai_query_results_projects, if_pos (Or.inr h)]
      rfl
    · rcases h with h | h <;>
        rw [ai_query_results_certificates, h, if_neg (by decide)]
    · rcases h with h | h <;>
        rw [ai_query_results_journal, h, if_neg (by decide)]
  · intro h
    refine ⟨?_, ?_, ?_⟩
    · rcases h with h | h <;>
        rw [ai_query_results_projects, h, if_neg (by decide)]
    · rw [ai_query_results_certificates, if_pos (Or.inr h)]
      rfl
    · rcases h with h | h <;>
        rw [ai_query_results_journal, h, if_neg (by decide)]
  · intro h
    refine ⟨?_, ?_, ?_⟩
    · rw [ai_query_results_projects, h, if_neg (by decide)]
    · rw [ai_query_results_certificates, h, if_neg (by decide)]
    · rw [ai_query_results_journal, h, if_pos (by decide)]
      rfl
  · intro h
    obtain ⟨h1, h2, h3, h4, h5, h6⟩ := h
    refine ⟨?_, ?_, ?_⟩
    · rw [ai_query_results_projects,
        if_neg (fun hc => hc.elim h1 (fun hc2 => hc2.elim h2 h3))]
    · rw [ai_query_results_certificates,
        if_neg (fun hc => hc.elim h1 (fun hc2 => hc2.elim h4 h5))]
    · rw [ai_query_results_journal, if_neg (fun hc => hc.elim h1 h6)]

/-- Witness for C3: with focus Certificates, recognized case-insensitively,
the projects and journal keys are not populated. -/
theorem claim_C3_witness :
    (ai_query ⟨[], [], []⟩
        ⟨str "hi", some (str "Certificates")⟩).results.projects =
      Option.none ∧
    (ai_query ⟨[], [], []⟩
        ⟨str "hi", some (str "Certificates")⟩).results.journal =
      Option.none := by
  have h := claim_C3 ⟨[], [], []⟩ (str "hi") (some (str "Certificates"))
  have hc := h.2.2.2.1 (Or.inr (by decide))
  exact ⟨hc.1, hc.2.2⟩

/-- C4: the answer string is the concatenation of at most three sentences in
the fixed order projects, certificates, journal, separated by a single space
and carrying no trailing whitespace; the journal sentence names at most the
first 3 tags of the top journal entry (built into journalSentence); and a
kind's sentence is emitted exactly when that kind's results list is
non-empty, which happens exactly when at least one record of a searched kind
exists, regardless of score. -/
theorem claim_C4 (st : Store) (q : Str) (f : Option Str) :
    (ai_query st ⟨q, f⟩).answer =
      joinSep (str " ") (sentList (ai_query st ⟨q, f⟩).results) ∧
    rstrip (ai_query st ⟨q, f⟩).answer = (ai_query st ⟨q, f⟩).answer ∧
    Option.map List.isEmpty (ai_query st ⟨q, f⟩).results.projects =
      Option.map (fun _ => st.projects.isEmpty)
        (ai_query st ⟨q, f⟩).results.projects ∧
    Option.map List.isEmpty (ai_query st ⟨q, f⟩).results.certificates =
      Option.map (fun _ => st.certificates.isEmpty)
        (ai_query st ⟨q, f⟩).results.certificates ∧
    Option.map List.isEmpty (ai_query st ⟨q, f⟩).results.journal =
      Option.map (fun _ => st.journal.isEmpty)
        (ai_query st ⟨q, f⟩).results.journal := by
  refine ⟨ai_query_answer st ⟨q, f⟩, ?_, ?_, ?_, ?_⟩
  · have e : (ai_query st ⟨q, f⟩).answer =
        pystrip (projPart (ai_query st ⟨q, f⟩).results.projects ++
          certPart (ai_query st ⟨q, f⟩).results.certificates ++
          journalPart (ai_query st ⟨q, f⟩).results.journal) := rfl
    rw [e, rstrip_pystrip]
  · rw [ai_query_results_projects]
    by_cases h : (strToLower (f.getD []) = [] ∨
        strToLower (f.getD []) = str "project" ∨
        strToLower (f.getD []) = str "projects")
    · rw [if_pos h]
      exact congrArg some (sortDesc_take5_isEmpty st.projects)
    · rw [if_neg h]
      rfl
  · rw [ai_query_results_certificates]
    by_cases h : (strToLower (f.getD []) = [] ∨
        strToLower (f.getD []) = str "certificate" ∨
        strToLower (f.getD []) = str "certificates")
    · rw [if_pos h]
      exact congrArg some (sortDesc_take5_isEmpty st.certificates)
    · rw [if_neg h]
      rfl
  · rw [ai_query_results_journal]
    by_cases h : (strToLower (f.getD []) = [] ∨
        strToLower (f.getD []) = str "journal")
    · rw [if_pos h]
      exact congrArg some (sortDesc_take5_isEmpty st.journal)
    · rw [if_neg h]
      rfl

/-- Counterexample to C5 as stated: with focus unset, the question python
occurs in no project or journal record (the only project is Game Engine, the
journal is empty) while the certificate Python Cert matches it, yet the
answer still opens with the project sentence, so it is not the certificate
sentence alone. -/
theorem claim_C5_counterexample :
    rank_text (strToLower (str "python"))
      (projectSearchText gameEngine) = 0 ∧
    containsSub (str "python")
      (strToLower (certificateSearchText pyCert)) = true ∧
    (ai_query ⟨[gameEngine], [pyCert], []⟩
        ⟨str "python", Option.none⟩).answer =
      str "Top project: Game Engine — tech: C++. Recent certificate: Python Cert in AI." ∧
    (ai_query ⟨[gameEngine], [pyCert], []⟩
        ⟨str "python", Option.none⟩).answer ≠ certSentence pyCert := by
  decide

/-- C5 (amended): with focus unset and a store that holds no project and no
journal records but at least one certificate, the returned narrative answer
is exactly one sentence, the certificate sentence of the top-ranked
certificate. -/
theorem claim_C5 (c : Certificate) (cs : List Certificate) (q : Str) :
    ∃ top tl,
      sortDesc (certificateScore (strToLower q)) (c :: cs) = top :: tl ∧
      (ai_query ⟨[], c :: cs, []⟩ ⟨q, Option.none⟩).answer =
        certSentence top := by
  obtain ⟨top, tl, ht⟩ :=
    List.exists_cons_of_ne_nil
      (insertDesc_ne_nil c (sortDesc (certificateScore (strToLower q)) cs))
  have ht2 : sortDesc (certificateScore (strToLower q)) (c :: cs) =
      top :: tl := ht
  refine ⟨top, tl, ht2, ?_⟩
  rw [ai_query_answer]
  have hp : (ai_query ⟨[], c :: cs, []⟩
      ⟨q, Option.none⟩).results.projects = some [] := by
    rw [ai_query_results_projects, if_pos (by decide)]
    rfl
  have hc : (ai_query ⟨[], c :: cs, []⟩
      ⟨q, Option.none⟩).results.certificates =
      some (top :: tl.take 4) := by
    rw [ai_query_results_certificates, if_pos (by decide), ht2]
    rfl
  have hj : (ai_query ⟨[], c :: cs, []⟩
      ⟨q, Option.none⟩).results.journal = some [] := by
    rw [ai_query_results_journal, if_pos (by decide)]
    rfl
  rw [sentList, hp, hc, hj]
  simp [topOf, joinSep]

/-- C6: GET /profile returns the most recently created profile record (the
last-created one, under the spec-modelled newest-first adapter order), and
the empty object, modelled as none, when no profile record exists. -/
theorem claim_C6 :
    (∀ profiles : List Profile, get_profile profiles = profiles.getLast?) ∧
    get_profile [] = Option.none :=
  ⟨get_profile_getLast, rfl⟩

/-- C7 (amended): for every non-empty tag value, GET /projects returns
exactly the projects some highlight of which contains the value as a
case-insensitive substring, up to the spec-modelled retrieval order;
analogously tech over tech_stack; with no filter parameters supplied, or an
empty-string parameter, it returns all project records; and both parameters
together combine with logical AND. -/
theorem claim_C7 (projects : List Project) (c c2 : Char) (v w : Str) :
    List.Perm (get_projects projects (some (c :: v)) Option.none)
      (projects.filter (fun p => elemMatchCI (c :: v) p.highlights)) ∧
    List.Perm (get_projects projects Option.none (some (c2 :: w)))
      (projects.filter (fun p => elemMatchCI (c2 :: w) p.tech_stack)) ∧
    List.Perm (get_projects projects Option.none Option.none) projects ∧
    List.Perm (get_projects projects (some (str "")) Option.none) projects ∧
    List.Perm (get_projects projects Option.none (some (str ""))) projects ∧
    List.Perm (get_projects projects (some (str "")) (some (str "")))
      projects ∧
    List.Perm (get_projects projects (some (c :: v)) (some (c2 :: w)))
      (projects.filter (fun p =>
        elemMatchCI (c :: v) p.highlights &&
          elemMatchCI (c2 :: w) p.tech_stack)) := by
  have base : ∀ pred : Project → Bool,
      List.Perm (projects.reverse.filter pred) (projects.filter pred) :=
    fun pred => List.Perm.filter pred (List.reverse_perm projects)
  have hes : (str "").isEmpty = true := rfl
  refine ⟨?_, ?_, ?_, ?_, ?_, ?_, ?_⟩
  · have e : get_projects projects (some (c :: v)) Option.none =
        projects.reverse.filter
          (fun p => elemMatchCI (c :: v) p.highlights) := by
      show projects.reverse.filter _ = _
      exact List.filter_congr (fun p _ => by simp)
    rw [e]
    exact base _
  · have e : get_projects projects Option.none (some (c2 :: w)) =
        projects.reverse.filter
          (fun p => elemMatchCI (c2 :: w) p.tech_stack) := by
      show projects.reverse.filter _ = _
      exact List.filter_congr (fun p _ => by simp)
    rw [e]
    exact base _
  · have e : get_projects projects Option.none Option.none =
        projects.reverse.filter (fun _ => true) := by
      show projects.reverse.filter _ = _
      exact List.filter_congr (fun p _ => by simp)
    rw [e, List.filter_true]
    exact List.reverse_perm projects
  · have e : get_projects projects (some (str "")) Option.none =
        projects.reverse.filter (fun _ => true) := by
      show projects.reverse.filter _ = _
      exact List.filter_congr (fun p _ => by simp [hes])
    rw [e, List.filter_true]
    exact List.reverse_perm projects
  · have e : get_projects projects Option.none (some (str "")) =
        projects.reverse.filter (fun _ => true) := by
      show projects.reverse.filter _ = _
      exact List.filter_congr (fun p _ => by simp [hes])
    rw [e, List.filter_true]
    exact List.reverse_perm projects
  · have e : get_projects projects (some (str "")) (some (str "")) =
        projects.reverse.filter (fun _ => true) := by
      show projects.reverse.filter _ = _
      exact List.filter_congr (fun p _ => by simp [hes])
    rw [e, List.filter_true]
    exact List.reverse_perm projects
  · have e : get_projects projects (some (c :: v)) (some (c2 :: w)) =
        projects.reverse.filter (fun p =>
          elemMatchCI (c :: v) p.highlights &&
            elemMatchCI (c2 :: w) p.tech_stack) := by
      show projects.reverse.filter _ = _
      exact List.filter_congr (fun p _ => by simp)
    rw [e]
    exact base _

/-- Counterexample to C7 as stated: with the empty string as the tag value,
Python truthiness skips the filter entirely, so a project with an empty
highlights list is returned even though no element of its highlights
contains the value. -/
theorem claim_C7_counterexample :
    plainProject ∈ get_projects [plainProject] (some (str "")) Option.none ∧
    List.filter (fun p => elemMatchCI (str "") p.highlights) [plainProject] =
      [] := by
  refine ⟨by decide, by decide⟩

/-- C8: an id string that is not a well-formed store identifier makes
update_item and delete_item fail with the 400 Invalid ID error before any
store call, leaving the collection unchanged. -/
theorem claim_C8 (V : Type) (coll : Coll V) (id_str : Str) (data : Doc V)
    (now : V) (h : to_oid id_str = Option.none) :
    update_item coll id_str data now =
      (coll, Except.error ⟨400, str "Invalid ID"⟩) ∧
    delete_item coll id_str =
      (coll, Except.error ⟨400, str "Invalid ID"⟩) := by
  constructor
  · simp only [update_item, h]
  · simp only [delete_item, h]

/-- Witness for C8: a three-character id is rejected with 400 by both
operations, with the store untouched. -/
theorem claim_C8_witness :
    update_item ([] : Coll Nat) (str "nope") [] 0 =
      ([], Except.error ⟨400, str "Invalid ID"⟩) ∧
    delete_item ([] : Coll Nat) (str "nope") =
      ([], Except.error ⟨400, str "Invalid ID"⟩) :=
  claim_C8 Nat [] (str "nope") [] 0 (by decide)

theorem update_item_of_absent {V : Type} (coll : Coll V) (id_str : Str)
    (data : Doc V) (now : V) (hv : isValidOid id_str = true)
    (hnone : getField coll id_str = Option.none) :
    update_item coll id_str data now =
      (coll, Except.error ⟨404, str "Not found"⟩) := by
  have hoid : to_oid id_str = some id_str := by rw [to_oid, if_pos hv]
  simp [update_item, hoid, hnone]

theorem delete_item_of_absent {V : Type} (coll : Coll V) (id_str : Str)
    (hv : isValidOid id_str = true)
    (hnone : getField coll id_str = Option.none) :
    delete_item coll id_str = (coll, Except.error ⟨404, str "Not found"⟩) := by
  have hoid : to_oid id_str = some id_str := by rw [to_oid, if_pos hv]
  simp [delete_item, hoid, eraseFirst_of_none coll id_str hnone]

/-- C9: for a well-formed id that matches no stored document, update_item and
delete_item fail with the 404 Not found error; and, identifiers being unique,
a successful delete removes the document, so a second delete of the same id
fails with 404 rather than crashing. -/
theorem claim_C9 (V : Type) (coll : Coll V) (id_str : Str)
    (hv : isValidOid id_str = true) :
    (∀ (data : Doc V) (now : V), getField coll id_str = Option.none →
      update_item coll id_str data now =
        (coll, Except.error ⟨404, str "Not found"⟩)) ∧
    (getField coll id_str = Option.none →
      delete_item coll id_str =
        (coll, Except.error ⟨404, str "Not found"⟩)) ∧
    ((coll.map Prod.fst).Nodup → ∀ coll2 : Coll V,
      delete_item coll id_str = (coll2, Except.ok true) →
      delete_item coll2 id_str =
        (coll2, Except.error ⟨404, str "Not found"⟩)) := by
  have hoid : to_oid id_str = some id_str := by rw [to_oid, if_pos hv]
  refine ⟨fun data now hnone =>
      update_item_of_absent coll id_str data now hv hnone,
    fun hnone => delete_item_of_absent coll id_str hv hnone, ?_⟩
  intro hnd coll2 hdel
  simp only [delete_item, hoid] at hdel
  by_cases hz : (eraseFirst coll id_str).2 = 0
  · rw [if_pos hz] at hdel
    have h2 := congrArg Prod.snd hdel
    simp at h2
  · rw [if_neg hz] at hdel
    have h1 : (eraseFirst coll id_str).1 = coll2 := congrArg Prod.fst hdel
    have hnone2 : getField coll2 id_str = Option.none := by
      rw [← h1]
      exact getField_eraseFirst_nodup coll id_str hnd
    exact delete_item_of_absent coll2 id_str hv hnone2

/-- Witness for C9: a well-formed id absent from an empty store draws 404
from update and delete, and after a successful delete the second delete of
the same id draws 404 as well. -/
theorem claim_C9_witness :
    update_item ([] : Coll Nat) oidA [] 0 =
      ([], Except.error ⟨404, str "Not found"⟩) ∧
    delete_item ([(oidA, ([] : Doc Nat))] : Coll Nat) oidA =
      ([], Except.ok true) ∧
    delete_item ([] : Coll Nat) oidA =
      ([], Except.error ⟨404, str "Not found"⟩) := by
  have h1 := claim_C9 Nat [] oidA (by decide)
  have h2 := claim_C9 Nat [(oidA, ([] : Doc Nat))] oidA (by decide)
  have hdel : delete_item ([(oidA, ([] : Doc Nat))] : Coll Nat) oidA =
      ([], Except.ok true) := rfl
  exact ⟨h1.1 [] 0 rfl, hdel, h2.2.2 (by decide) [] hdel⟩

/-- C10: updating an existing id changes exactly the supplied fields; the
updated_at field is set to the server timestamp even when the caller
supplies an updated_at value of its own; every other field keeps its old
value; and the updated document is both returned and stored under the id. -/
theorem claim_C10 (V : Type) (coll : Coll V) (id_str : Str) (data : Doc V)
    (now : V) (doc : Doc V) (hv : isValidOid id_str = true)
    (hfind : getField coll id_str = some doc) :
    (update_item coll id_str data now).2 =
      Except.ok (some (mergedDoc doc data now)) ∧
    getField (update_item coll id_str data now).1 id_str =
      some (mergedDoc doc data now) ∧
    getField (mergedDoc doc data now) (str "updated_at") = some now ∧
    (∀ (k : Str) (v : V), k ≠ str "updated_at" → lastVal data k = some v →
      getField (mergedDoc doc data now) k = some v) ∧
    (∀ k : Str, k ≠ str "updated_at" → lastVal data k = Option.none →
      getField (mergedDoc doc data now) k = getField doc k) := by
  have hoid : to_oid id_str = some id_str := by rw [to_oid, if_pos hv]
  have hcoll2 : getField (updateFirst coll id_str
      (fun d => applySet d (data ++ [(str "updated_at", now)]))) id_str =
      some (mergedDoc doc data now) :=
    getField_updateFirst coll id_str _ hfind
  refine ⟨?_, ?_, ?_, ?_, ?_⟩
  · simp only [update_item, hoid, hfind]
    exact congrArg Except.ok hcoll2
  · simp only [update_item, hoid, hfind]
    exact hcoll2
  · rw [mergedDoc, getField_applySet, lastVal_append]
    simp [lastVal]
  · intro k v hk hlast
    have hne : ¬(str "updated_at" = k) := fun hh => hk hh.symm
    rw [mergedDoc, getField_applySet, lastVal_append]
    simp [lastVal, hne, hlast]
  · intro k hk hlast
    have hne : ¬(str "updated_at" = k) := fun hh => hk hh.symm
    rw [mergedDoc, getField_applySet, lastVal_append]
    simp [lastVal, hne, hlast]

/-- Witness for C10: updating a stored document sets updated_at to the server
value 5 even though the payload supplied 7, updates the supplied field a, and
preserves the untouched field b. -/
theorem claim_C10_witness :
    (update_item collW oidA dataW (5 : Nat)).2 =
      Except.ok (some (mergedDoc docW dataW 5)) ∧
    getField (mergedDoc docW dataW 5) (str "updated_at") = some 5 ∧
    getField (mergedDoc docW dataW 5) (str "a") = some 9 ∧
    getField (mergedDoc docW dataW 5) (str "b") = getField docW (str "b") := by
  have h := claim_C10 Nat collW oidA dataW 5 docW (by decide) (by decide)
  exact ⟨h.1, h.2.2.1,
    h.2.2.2.1 (str "a") 9 (by decide) (by decide),
    h.2.2.2.2 (str "b") (by decide) (by decide)⟩
